import Mathlib

/-!
Shallow embedding of the linear-regression module (class LinearRegressor with
least-squares and gradient-descent fitting, prediction, and a one-hot encoder).

Conventions of the embedding:
* numpy float arithmetic is modelled by exact arithmetic over the rationals;
* the mutable object state (attributes coefficients and intercept) is passed
  explicitly: each method returns the model state at the moment the call ends,
  paired with an Except value; a Python exception is an Except.error, and the
  model component of the pair is the state at the moment the exception left
  the method (attribute assignments performed before the raise are kept);
* the calls np.random.rand(k) and np.random.rand() in fit_gradient_descent are
  modelled by explicit parameters rand_coef and rand_icpt holding the drawn
  numbers (the source multiplies the draws by 0.01, and so does the embedding);
* Python integer floor division and modulo on the nonnegative iteration
  counters are Nat division and modulo; evaluating x % 0 raises
  ZeroDivisionError in Python, which the embedding models by an explicit
  divisor-zero test at each site where the source evaluates a modulo;
* the print diagnostic inside the loop has no effect on state or result and is
  not modelled beyond the ZeroDivisionError its cadence divisor can raise.
-/

namespace LabLR

open Matrix

/-- The Python exceptions the module can raise, tagged by site.  Both cadence
faults and the gradient division fault are ZeroDivisionError in Python; the
embedding tags the raise site. -/
inductive PyErr where
  | invalidMethod : PyErr
  | notFitted : PyErr
  | singularMatrix : PyErr
  | zeroDivGradient : PyErr
  | zeroDivCadence10 : PyErr
  | zeroDivCadence100 : PyErr
deriving DecidableEq, Repr

/-- A PyErr that models a Python ZeroDivisionError (a division-related fault). -/
def PyErr.isZeroDiv : PyErr → Bool
  | .zeroDivGradient => true
  | .zeroDivCadence10 => true
  | .zeroDivCadence100 => true
  | _ => false

/-- The object state of LinearRegressor: attributes coefficients and
intercept, both initialized to None in the constructor.  The feature count n
is a type index of the embedding. -/
structure Model (n : ℕ) where
  coefficients : Option (Fin n → ℚ)
  intercept : Option ℚ

/-- np.insert(X, 0, 1, axis=1): prepend a constant-1 column. -/
def augment {m n : ℕ} (X : Matrix (Fin m) (Fin n) ℚ) :
    Matrix (Fin m) (Fin (n + 1)) ℚ :=
  Matrix.of fun i j => Fin.cases 1 (fun k => X i k) j

/-- X[:, 1:]: strip the leading (bias) column. -/
def unaug {m n : ℕ} (X : Matrix (Fin m) (Fin (n + 1)) ℚ) :
    Matrix (Fin m) (Fin n) ℚ :=
  Matrix.of fun i j => X i j.succ

/-- X.reshape(-1, 1): a one-dimensional array as a single-column matrix. -/
def reshapeCol {m : ℕ} (x : Fin m → ℚ) : Matrix (Fin m) (Fin 1) ℚ :=
  Matrix.of fun i _ => x i

/-- LinearRegressor.predict on two-dimensional input.  Source: raise
ValueError("Model is not yet fitted") when an attribute is None, else return
np.dot(X, self.coefficients) + self.intercept.  The first component of the
result is the object state when the call ends: predict assigns no attribute,
so it is the receiver itself. -/
def Model.predict {n m : ℕ} (M : Model n) (X : Matrix (Fin m) (Fin n) ℚ) :
    Model n × Except PyErr (Fin m → ℚ) :=
  match M.coefficients, M.intercept with
  | some c, some b => (M, .ok fun i => X.mulVec c i + b)
  | some _, none => (M, .error .notFitted)
  | none, _ => (M, .error .notFitted)

/-- LinearRegressor.predict on one-dimensional input for a single-feature
model: self.coefficients * X + self.intercept with a length-1 coefficient
array broadcast elementwise. -/
def Model.predict1 {m : ℕ} (M : Model 1) (x : Fin m → ℚ) :
    Model 1 × Except PyErr (Fin m → ℚ) :=
  match M.coefficients, M.intercept with
  | some c, some b => (M, .ok fun i => c 0 * x i + b)
  | some _, none => (M, .error .notFitted)
  | none, _ => (M, .error .notFitted)

/-- np.linalg.inv over exact arithmetic: the inverse of a nonsingular square
matrix, LinAlgError (modelled as singularMatrix) on a singular one. -/
def npLinalgInv {k : ℕ} (A : Matrix (Fin k) (Fin k) ℚ) :
    Except PyErr (Matrix (Fin k) (Fin k) ℚ) :=
  if A.det = 0 then .error .singularMatrix else .ok (A.det⁻¹ • A.adjugate)

/-- LinearRegressor.fit_multiple: X_t = transpose(X); w1 = inv(X_t @ X);
w2 = w1 @ X_t; w = w2 @ y; intercept = w[0]; coefficients = w[1:].  The
matrix X it receives is already bias-augmented.  When inv raises, no
attribute has been assigned yet, so the state is the receiver unchanged. -/
def Model.fit_multiple {n m : ℕ} (M : Model n)
    (X : Matrix (Fin m) (Fin (n + 1)) ℚ) (y : Fin m → ℚ) :
    Model n × Except PyErr Unit :=
  let X_t := X.transpose
  match npLinalgInv (X_t * X) with
  | .error e => (M, .error e)
  | .ok w1 =>
    let w2 := w1 * X_t
    let w := w2.mulVec y
    ({ coefficients := some fun j => w j.succ, intercept := some (w 0) }, .ok ())

/-- Loop state of fit_gradient_descent: the current attributes
self.coefficients / self.intercept and the three local history lists
mse_list, coefficients, intercepts. -/
structure GDState (n : ℕ) where
  coef : Fin n → ℚ
  icpt : ℚ
  mseList : List ℚ
  coefList : List (Fin n → ℚ)
  icptList : List ℚ

/-- The then-branch of the recording conditional (source lines 119-121):
append 1/m * sum(error**2), a copy of the updated coefficients, and the
updated intercept. -/
def gdRecordA {n m : ℕ} (s : GDState n) (error : Fin m → ℚ)
    (coefNew : Fin n → ℚ) (icptNew : ℚ) : GDState n :=
  { coef := coefNew, icpt := icptNew,
    mseList := s.mseList ++ [1 / (m : ℚ) * Finset.univ.sum fun i => error i ^ 2],
    coefList := s.coefList ++ [coefNew],
    icptList := s.icptList ++ [icptNew] }

/-- The else-branch of the recording conditional (source lines 123-125):
textually the same three appends as the then-branch. -/
def gdRecordB {n m : ℕ} (s : GDState n) (error : Fin m → ℚ)
    (coefNew : Fin n → ℚ) (icptNew : ℚ) : GDState n :=
  { coef := coefNew, icpt := icptNew,
    mseList := s.mseList ++ [1 / (m : ℚ) * Finset.univ.sum fun i => error i ^ 2],
    coefList := s.coefList ++ [coefNew],
    icptList := s.icptList ++ [icptNew] }

/-- One epoch of the gradient-descent loop body.  Mirrors, in order:
predictions = self.predict(X[:, 1:]); error = predictions - y;
gradient = 1 / m * np.dot(error, X) (the division 1/m raises when m = 0);
the two attribute updates; the diagnostic cadence epoch % (iterations // 10)
(raises when the divisor is zero, after the updates); the recording
conditional epoch % (iterations // 100) == 0 and iterations > 1000 (its
modulo raises when that divisor is zero; both branches do the same appends).
Returns the state when the epoch ends together with ok or the raised error. -/
def gdEpoch {n m : ℕ} (X : Matrix (Fin m) (Fin (n + 1)) ℚ) (y : Fin m → ℚ)
    (learning_rate : ℚ) (iterations : ℕ) (epoch : ℕ) (s : GDState n) :
    GDState n × Except PyErr Unit :=
  match (Model.mk (some s.coef) (some s.icpt)).predict (unaug X) |>.2 with
  | .error e => (s, .error e)
  | .ok predictions =>
    let error := fun i => predictions i - y i
    if m = 0 then (s, .error .zeroDivGradient)
    else
      let gradient := fun j => 1 / (m : ℚ) * Matrix.vecMul error X j
      let icptNew := s.icpt - learning_rate * gradient 0
      let coefNew := fun j => s.coef j - learning_rate * gradient j.succ
      if iterations / 10 = 0 then
        ({ s with coef := coefNew, icpt := icptNew }, .error .zeroDivCadence10)
      else if iterations / 100 = 0 then
        ({ s with coef := coefNew, icpt := icptNew }, .error .zeroDivCadence100)
      else if epoch % (iterations / 100) = 0 ∧ iterations > 1000 then
        (gdRecordA s error coefNew icptNew, .ok ())
      else
        (gdRecordB s error coefNew icptNew, .ok ())

/-- The for-loop of fit_gradient_descent: run the remaining epochs, stopping
only when the fuel (remaining epoch count) is exhausted or an epoch raises. -/
def gdLoop {n m : ℕ} (X : Matrix (Fin m) (Fin (n + 1)) ℚ) (y : Fin m → ℚ)
    (learning_rate : ℚ) (iterations : ℕ) :
    ℕ → ℕ → GDState n → GDState n × Except PyErr Unit
  | _, 0, s => (s, .ok ())
  | epoch, fuel + 1, s =>
    match gdEpoch X y learning_rate iterations epoch s with
    | (s', .error e) => (s', .error e)
    | (s', .ok ()) => gdLoop X y learning_rate iterations (epoch + 1) fuel s'

/-- LinearRegressor.fit_gradient_descent.  Initializes the attributes to the
random draws scaled by 0.01 (before the loop, so they are set even when the
loop later raises), runs the loop from epoch 0, and on normal termination
returns (mse_list, coefficients, intercepts). -/
def Model.fit_gradient_descent {n m : ℕ} (_M : Model n)
    (X : Matrix (Fin m) (Fin (n + 1)) ℚ) (y : Fin m → ℚ)
    (learning_rate : ℚ) (iterations : ℕ)
    (rand_coef : Fin n → ℚ) (rand_icpt : ℚ) :
    Model n × Except PyErr (List ℚ × List (Fin n → ℚ) × List ℚ) :=
  let coef0 := fun j => rand_coef j * (1 / 100 : ℚ)
  let icpt0 := rand_icpt * (1 / 100 : ℚ)
  match gdLoop X y learning_rate iterations 0 iterations
      ⟨coef0, icpt0, [], [], []⟩ with
  | (s, .error e) =>
    ({ coefficients := some s.coef, intercept := some s.icpt }, .error e)
  | (s, .ok ()) =>
    ({ coefficients := some s.coef, intercept := some s.icpt },
      .ok (s.mseList, s.coefList, s.icptList))

/-- LinearRegressor.fit on a two-dimensional X: reject an unrecognized method
string first, then build X_with_bias and dispatch.  The least-squares branch
returns None (modelled Option.none); the gradient-descent branch returns the
three histories. -/
def Model.fit {n m : ℕ} (M : Model n) (X : Matrix (Fin m) (Fin n) ℚ)
    (y : Fin m → ℚ) (method : String) (learning_rate : ℚ) (iterations : ℕ)
    (rand_coef : Fin n → ℚ) (rand_icpt : ℚ) :
    Model n × Except PyErr (Option (List ℚ × List (Fin n → ℚ) × List ℚ)) :=
  if method ≠ "least_squares" ∧ method ≠ "gradient_descent" then
    (M, .error .invalidMethod)
  else
    let X_with_bias := augment X
    if method = "least_squares" then
      match M.fit_multiple X_with_bias y with
      | (M', .error e) => (M', .error e)
      | (M', .ok ()) => (M', .ok none)
    else
      match M.fit_gradient_descent X_with_bias y learning_rate iterations
          rand_coef rand_icpt with
      | (M', .error e) => (M', .error e)
      | (M', .ok r) => (M', .ok (some r))

/-- LinearRegressor.fit on a one-dimensional X: the np.ndim(X) == 1 branch
reshapes X into a single-column matrix and continues as the general case. -/
def Model.fit1 {m : ℕ} (M : Model 1) (x : Fin m → ℚ) (y : Fin m → ℚ)
    (method : String) (learning_rate : ℚ) (iterations : ℕ)
    (rand_coef : Fin 1 → ℚ) (rand_icpt : ℚ) :
    Model 1 × Except PyErr (Option (List ℚ × List (Fin 1 → ℚ) × List ℚ)) :=
  M.fit (reshapeCol x) y method learning_rate iterations rand_coef rand_icpt

/-- The epoch map asserted by the specification, written from its words: one
parameter state (coefficients, intercept) maps to predictions on the
un-augmented features, residual error, gradient (1/m) * error^T * X_augmented,
and the two learning-rate updates. -/
def gdClaimStep {n m : ℕ} (X : Matrix (Fin m) (Fin (n + 1)) ℚ)
    (y : Fin m → ℚ) (learning_rate : ℚ)
    (s : (Fin n → ℚ) × ℚ) : (Fin n → ℚ) × ℚ :=
  let predictions := fun i => (unaug X).mulVec s.1 i + s.2
  let error := fun i => predictions i - y i
  let gradient := fun j => 1 / (m : ℚ) * Matrix.vecMul error X j
  (fun j => s.1 j - learning_rate * gradient j.succ,
    s.2 - learning_rate * gradient 0)

/-!
The one-hot encoder works on a 2D data array whose cells may be numbers or
strings; it is embedded over an arbitrary linearly ordered cell type with
designated 0 and 1 elements (the indicator values the source writes into the
encoded columns).  A matrix is a list of rows.
-/

/-- np.unique: the sorted list of distinct values occurring in a column. -/
def npUnique {α : Type} [LinearOrder α] [DecidableEq α] (l : List α) :
    List α :=
  (l.dedup).insertionSort (· ≤ ·)

/-- sorted(indices, reverse=True): the indices in descending order. -/
def sortDescend (idxs : List ℕ) : List ℕ :=
  (idxs.insertionSort (· ≤ ·)).reverse

/-- one_hot_encode.  First loop: delete each categorical column from a copy
of X, walking the indices in descending order (np.delete(_, index, 1)).
Second loop, over the same descending indices: take the categorical column
from the original X, compute its sorted unique values, build the 0/1
indicator matrix (one column per unique value), optionally drop its first
column, and prepend the block to the accumulated matrix
(np.concatenate((one_hot, X_transformed), axis=1)). -/
def one_hot_encode {α : Type} [LinearOrder α] [DecidableEq α] [Zero α] [One α]
    (X : List (List α)) (categorical_indices : List ℕ)
    (drop_first : Bool) : List (List α) :=
  let deleted := (sortDescend categorical_indices).foldl
    (fun acc index => acc.map fun row => row.eraseIdx index) X
  (sortDescend categorical_indices).foldl
    (fun acc index =>
      let categorical_column := X.map fun row => row.getD index 0
      let unique_values := npUnique categorical_column
      let one_hot := categorical_column.map fun c =>
        unique_values.map fun v => if c = v then (1 : α) else 0
      let one_hot := if drop_first then one_hot.map (List.drop 1) else one_hot
      List.zipWith (· ++ ·) one_hot acc)
    deleted

/-! Helper lemmas shared by several of the claim theorems. -/

lemma foldl_map_comm {α : Type} (ds : List ℕ) :
    ∀ X : List (List α),
      ds.foldl (fun acc index => acc.map fun row => row.eraseIdx index) X =
        X.map fun row => ds.foldl (fun r index => r.eraseIdx index) row := by
  induction ds with
  | nil => intro X; simp
  | cons d rest ih =>
    intro X
    rw [List.foldl_cons, ih, List.map_map]
    rfl

lemma eraseIdx_foldl_length {α : Type} :
    ∀ (ds : List ℕ) (row : List α),
      List.Pairwise (· > ·) ds → (∀ d ∈ ds, d < row.length) →
      (ds.foldl (fun r index => r.eraseIdx index) row).length =
        row.length - ds.length := by
  intro ds
  induction ds with
  | nil => intro row _ _; rfl
  | cons d rest ih =>
    intro row hpw hbound
    have hd : d < row.length := hbound d (by simp)
    have herase : (row.eraseIdx d).length = row.length - 1 := by
      have := List.length_eraseIdx_add_one hd
      omega
    have hrest : ∀ x ∈ rest, x < (row.eraseIdx d).length := by
      intro x hx
      have hxd : d > x := (List.pairwise_cons.mp hpw).1 x hx
      omega
    rw [List.foldl_cons, ih (row.eraseIdx d) (List.pairwise_cons.mp hpw).2 hrest,
      herase, List.length_cons]
    omega

lemma zipWith_append_length {α : Type} :
    ∀ (A B : List (List α)) (wA wB : ℕ),
      (∀ a ∈ A, a.length = wA) → (∀ b ∈ B, b.length = wB) →
      ∀ r ∈ List.zipWith (· ++ ·) A B, r.length = wA + wB := by
  intro A
  induction A with
  | nil => intro B wA wB _ _ r hr; simp at hr
  | cons a A ih =>
    intro B wA wB hA hB r hr
    cases B with
    | nil => simp at hr
    | cons b B =>
      rw [List.zipWith_cons_cons] at hr
      rcases List.mem_cons.mp hr with h | h
      · subst h
        rw [List.length_append, hA a (by simp), hB b (by simp)]
      · exact ih B wA wB (fun x hx => hA x (List.mem_cons_of_mem a hx))
          (fun x hx => hB x (List.mem_cons_of_mem b hx)) r h

lemma sortDescend_perm (idxs : List ℕ) : (sortDescend idxs).Perm idxs :=
  (List.reverse_perm _).trans (List.perm_insertionSort _ idxs)

lemma sortDescend_pairwise {idxs : List ℕ} (hnd : idxs.Nodup) :
    List.Pairwise (· > ·) (sortDescend idxs) := by
  rw [sortDescend, List.pairwise_reverse]
  have hs : List.Sorted (· ≤ ·) (idxs.insertionSort (· ≤ ·)) :=
    List.sorted_insertionSort _ idxs
  have hn : (idxs.insertionSort (· ≤ ·)).Nodup :=
    (List.perm_insertionSort _ idxs).symm.nodup hnd
  exact (hs.and hn).imp fun h => lt_of_le_of_ne h.1 h.2

/-- The body of the encoding loop of one_hot_encode, applied to one
categorical index. -/
def oheStep {α : Type} [LinearOrder α] [DecidableEq α] [Zero α] [One α]
    (X : List (List α)) (drop_first : Bool) (acc : List (List α))
    (index : ℕ) : List (List α) :=
  let categorical_column := X.map fun row => row.getD index 0
  let unique_values := npUnique categorical_column
  let one_hot := categorical_column.map fun c =>
    unique_values.map fun v => if c = v then (1 : α) else 0
  let one_hot := if drop_first then one_hot.map (List.drop 1) else one_hot
  List.zipWith (· ++ ·) one_hot acc

lemma one_hot_encode_eq {α : Type} [LinearOrder α] [DecidableEq α] [Zero α]
    [One α] (X : List (List α)) (categorical_indices : List ℕ)
    (drop_first : Bool) :
    one_hot_encode X categorical_indices drop_first =
      (sortDescend categorical_indices).foldl (oheStep X drop_first)
        ((sortDescend categorical_indices).foldl
          (fun acc index => acc.map fun row => row.eraseIdx index) X) := rfl

lemma npUnique_length {α : Type} [LinearOrder α] [DecidableEq α]
    (l : List α) : (npUnique l).length = l.toFinset.card := by
  rw [npUnique, List.length_insertionSort, List.card_toFinset]

/-- The contribution of one categorical index to one row: the indicator bits
of that row's cell (against the unique values of the whole column of X),
optionally with the first bit dropped, prepended to the row accumulated so
far. -/
def oheRowStep {α : Type} [LinearOrder α] [DecidableEq α] [Zero α] [One α]
    (X : List (List α)) (drop_first : Bool) (row : List α)
    (racc : List α) (index : ℕ) : List α :=
  let unique_values := npUnique (X.map fun r => r.getD index 0)
  let bits := unique_values.map fun v =>
    if row.getD index 0 = v then (1 : α) else 0
  (if drop_first then bits.drop 1 else bits) ++ racc

/-- What one_hot_encode does to a single row: delete the categorical cells
(descending indices), then prepend one indicator block per categorical
index.  Every phase of one_hot_encode is index-aligned (map / zipWith over
rows), so the whole encoder is the map of this transform over the rows of X
in their original order. -/
def oheRow {α : Type} [LinearOrder α] [DecidableEq α] [Zero α] [One α]
    (X : List (List α)) (categorical_indices : List ℕ) (drop_first : Bool)
    (row : List α) : List α :=
  (sortDescend categorical_indices).foldl (oheRowStep X drop_first row)
    ((sortDescend categorical_indices).foldl
      (fun r index => r.eraseIdx index) row)

lemma zipWith_append_two_maps {α β : Type} (f g : α → List β) :
    ∀ X : List α,
      List.zipWith (· ++ ·) (X.map f) (X.map g) = X.map fun x => f x ++ g x := by
  intro X
  induction X with
  | nil => rfl
  | cons a X ih => simp [ih]

lemma oheStep_map {α : Type} [LinearOrder α] [DecidableEq α] [Zero α]
    [One α] (X : List (List α)) (drop_first : Bool) (index : ℕ)
    (g : List α → List α) :
    oheStep X drop_first (X.map g) index =
      X.map fun row => oheRowStep X drop_first row (g row) index := by
  cases drop_first with
  | false =>
    rw [oheStep]
    simp only [if_neg Bool.false_ne_true, List.map_map]
    rw [zipWith_append_two_maps]
    rfl
  | true =>
    rw [oheStep]
    simp only [eq_self_iff_true, if_true, List.map_map]
    rw [zipWith_append_two_maps]
    rfl

lemma ohe_fold_map {α : Type} [LinearOrder α] [DecidableEq α] [Zero α]
    [One α] (X : List (List α)) (drop_first : Bool) :
    ∀ (ds : List ℕ) (g : List α → List α),
      ds.foldl (oheStep X drop_first) (X.map g) =
        X.map fun row => ds.foldl (oheRowStep X drop_first row) (g row) := by
  intro ds
  induction ds with
  | nil => intro g; rfl
  | cons c rest ih =>
    intro g
    rw [List.foldl_cons, oheStep_map X drop_first c g,
      ih fun row => oheRowStep X drop_first row (g row) c]
    rfl

lemma one_hot_encode_map {α : Type} [LinearOrder α] [DecidableEq α] [Zero α]
    [One α] (X : List (List α)) (categorical_indices : List ℕ)
    (drop_first : Bool) :
    one_hot_encode X categorical_indices drop_first =
      X.map (oheRow X categorical_indices drop_first) := by
  rw [one_hot_encode_eq, foldl_map_comm]
  exact ohe_fold_map X drop_first (sortDescend categorical_indices) _

lemma oheStep_spec {α : Type} [LinearOrder α] [DecidableEq α] [Zero α]
    [One α] (X : List (List α)) (drop_first : Bool) (index : ℕ)
    (acc : List (List α)) (C : ℕ) (hlen : acc.length = X.length)
    (hrows : ∀ r ∈ acc, r.length = C) :
    (oheStep X drop_first acc index).length = X.length ∧
    ∀ r ∈ oheStep X drop_first acc index, r.length =
      ((npUnique (X.map fun row => row.getD index 0)).length -
        (if drop_first then 1 else 0)) + C := by
  have hohlen : ∀ a ∈ (if drop_first then
      ((X.map fun row => row.getD index 0).map fun c =>
        (npUnique (X.map fun row => row.getD index 0)).map fun v =>
          if c = v then (1 : α) else 0).map (List.drop 1)
    else
      (X.map fun row => row.getD index 0).map fun c =>
        (npUnique (X.map fun row => row.getD index 0)).map fun v =>
          if c = v then (1 : α) else 0),
      a.length = (npUnique (X.map fun row => row.getD index 0)).length -
        (if drop_first then 1 else 0) := by
    cases drop_first with
    | false =>
      intro a ha
      simp only [if_neg Bool.false_ne_true] at ha ⊢
      obtain ⟨c, _, rfl⟩ := List.mem_map.mp ha
      simp
    | true =>
      intro a ha
      simp only [if_pos rfl] at ha ⊢
      obtain ⟨b, hb, rfl⟩ := List.mem_map.mp ha
      obtain ⟨c, _, rfl⟩ := List.mem_map.mp hb
      simp
  constructor
  · rw [oheStep, List.length_zipWith, hlen]
    cases drop_first <;> simp
  · intro r hr
    exact zipWith_append_length _ acc _ C hohlen hrows r hr

lemma ohe_fold_spec {α : Type} [LinearOrder α] [DecidableEq α] [Zero α]
    [One α] (X : List (List α)) (drop_first : Bool) :
    ∀ (ds : List ℕ) (acc : List (List α)) (C : ℕ),
      acc.length = X.length → (∀ r ∈ acc, r.length = C) →
      (ds.foldl (oheStep X drop_first) acc).length = X.length ∧
      ∀ r ∈ ds.foldl (oheStep X drop_first) acc, r.length =
        C + (ds.map fun index =>
          (npUnique (X.map fun row => row.getD index 0)).length -
            (if drop_first then 1 else 0)).sum := by
  intro ds
  induction ds with
  | nil =>
    intro acc C hlen hrows
    exact ⟨hlen, fun r hr => by simpa using hrows r hr⟩
  | cons c rest ih =>
    intro acc C hlen hrows
    obtain ⟨hl1, hr1⟩ := oheStep_spec X drop_first c acc C hlen hrows
    obtain ⟨hl2, hr2⟩ := ih (oheStep X drop_first acc c)
      (((npUnique (X.map fun row => row.getD c 0)).length -
        (if drop_first then 1 else 0)) + C) hl1 hr1
    rw [List.foldl_cons]
    refine ⟨hl2, fun r hr => ?_⟩
    rw [hr2 r hr, List.map_cons, List.sum_cons]
    omega

lemma fit_multiple_eq {n m : ℕ} (M : Model n)
    (Xa : Matrix (Fin m) (Fin (n + 1)) ℚ) (y : Fin m → ℚ)
    (h : (Xaᵀ * Xa).det ≠ 0) :
    M.fit_multiple Xa y =
      ({ coefficients := some fun j => ((Xaᵀ * Xa)⁻¹ * Xaᵀ).mulVec y j.succ,
         intercept := some (((Xaᵀ * Xa)⁻¹ * Xaᵀ).mulVec y 0) }, .ok ()) := by
  rw [Matrix.inv_def, Ring.inverse_eq_inv']
  simp only [Model.fit_multiple, npLinalgInv, if_neg h]

lemma fit_multiple_singular {n m : ℕ} (M : Model n)
    (Xa : Matrix (Fin m) (Fin (n + 1)) ℚ) (y : Fin m → ℚ)
    (h : (Xaᵀ * Xa).det = 0) :
    M.fit_multiple Xa y = (M, .error .singularMatrix) := by
  simp only [Model.fit_multiple, npLinalgInv, if_pos h]

lemma fit_ls_eq {n m : ℕ} (M : Model n) (X : Matrix (Fin m) (Fin n) ℚ)
    (y : Fin m → ℚ) (lr : ℚ) (it : ℕ) (rc : Fin n → ℚ) (ri : ℚ)
    (h : ((augment X)ᵀ * augment X).det ≠ 0) :
    M.fit X y "least_squares" lr it rc ri =
      ({ coefficients := some fun j =>
            (((augment X)ᵀ * augment X)⁻¹ * (augment X)ᵀ).mulVec y j.succ,
         intercept :=
            some ((((augment X)ᵀ * augment X)⁻¹ * (augment X)ᵀ).mulVec y 0) },
        .ok none) := by
  have hbad : ¬("least_squares" ≠ "least_squares" ∧
      "least_squares" ≠ "gradient_descent") := by
    intro hc
    exact hc.1 rfl
  simp only [Model.fit, if_neg hbad, eq_self_iff_true, if_true,
    fit_multiple_eq M _ y h]

lemma fit_ls_singular {n m : ℕ} (M : Model n) (X : Matrix (Fin m) (Fin n) ℚ)
    (y : Fin m → ℚ) (lr : ℚ) (it : ℕ) (rc : Fin n → ℚ) (ri : ℚ)
    (h : ((augment X)ᵀ * augment X).det = 0) :
    M.fit X y "least_squares" lr it rc ri = (M, .error .singularMatrix) := by
  have hbad : ¬("least_squares" ≠ "least_squares" ∧
      "least_squares" ≠ "gradient_descent") := by
    intro hc
    exact hc.1 rfl
  simp only [Model.fit, if_neg hbad, eq_self_iff_true, if_true,
    fit_multiple_singular M _ y h]

lemma fit_bad_method {n m : ℕ} (M : Model n) (X : Matrix (Fin m) (Fin n) ℚ)
    (y : Fin m → ℚ) (method : String) (lr : ℚ) (it : ℕ)
    (rc : Fin n → ℚ) (ri : ℚ)
    (h1 : method ≠ "least_squares") (h2 : method ≠ "gradient_descent") :
    M.fit X y method lr it rc ri = (M, .error .invalidMethod) := by
  simp only [Model.fit, if_pos (And.intro h1 h2)]

/-- The state transformer of one fault-free epoch: the error, gradient and
parameter updates of the loop body followed by the history appends. -/
def gdStepState {n m : ℕ} (X : Matrix (Fin m) (Fin (n + 1)) ℚ)
    (y : Fin m → ℚ) (lr : ℚ) (s : GDState n) : GDState n :=
  let error := fun i => ((unaug X).mulVec s.coef i + s.icpt) - y i
  let gradient := fun j => 1 / (m : ℚ) * Matrix.vecMul error X j
  gdRecordA s error (fun j => s.coef j - lr * gradient j.succ)
    (s.icpt - lr * gradient 0)

/-- Iterating the fault-free epoch transformer. -/
def gdRun {n m : ℕ} (X : Matrix (Fin m) (Fin (n + 1)) ℚ) (y : Fin m → ℚ)
    (lr : ℚ) : ℕ → GDState n → GDState n
  | 0, s => s
  | fuel + 1, s => gdRun X y lr fuel (gdStepState X y lr s)

lemma gdEpoch_ok {n m : ℕ} (X : Matrix (Fin m) (Fin (n + 1)) ℚ)
    (y : Fin m → ℚ) (lr : ℚ) (it epoch : ℕ) (s : GDState n)
    (hm : m ≠ 0) (h10 : it / 10 ≠ 0) (h100 : it / 100 ≠ 0) :
    gdEpoch X y lr it epoch s = (gdStepState X y lr s, .ok ()) := by
  simp only [gdEpoch, Model.predict, if_neg hm, if_neg h10, if_neg h100]
  split
  · rfl
  · rfl

lemma gdEpoch_m0 {n m : ℕ} (X : Matrix (Fin m) (Fin (n + 1)) ℚ)
    (y : Fin m → ℚ) (lr : ℚ) (it epoch : ℕ) (s : GDState n) (hm : m = 0) :
    gdEpoch X y lr it epoch s = (s, .error .zeroDivGradient) := by
  simp only [gdEpoch, Model.predict, if_pos hm]

lemma gdEpoch_cadence10 {n m : ℕ} (X : Matrix (Fin m) (Fin (n + 1)) ℚ)
    (y : Fin m → ℚ) (lr : ℚ) (it epoch : ℕ) (s : GDState n)
    (hm : m ≠ 0) (h10 : it / 10 = 0) :
    gdEpoch X y lr it epoch s =
      ({ s with coef := (gdClaimStep X y lr (s.coef, s.icpt)).1,
                icpt := (gdClaimStep X y lr (s.coef, s.icpt)).2 },
        .error .zeroDivCadence10) := by
  simp only [gdEpoch, Model.predict, if_neg hm, if_pos h10]
  rfl

lemma gdEpoch_cadence100 {n m : ℕ} (X : Matrix (Fin m) (Fin (n + 1)) ℚ)
    (y : Fin m → ℚ) (lr : ℚ) (it epoch : ℕ) (s : GDState n)
    (hm : m ≠ 0) (h10 : it / 10 ≠ 0) (h100 : it / 100 = 0) :
    gdEpoch X y lr it epoch s =
      ({ s with coef := (gdClaimStep X y lr (s.coef, s.icpt)).1,
                icpt := (gdClaimStep X y lr (s.coef, s.icpt)).2 },
        .error .zeroDivCadence100) := by
  simp only [gdEpoch, Model.predict, if_neg hm, if_neg h10, if_pos h100]
  rfl

lemma gdEpoch_error_isZeroDiv {n m : ℕ} (X : Matrix (Fin m) (Fin (n + 1)) ℚ)
    (y : Fin m → ℚ) (lr : ℚ) (it epoch : ℕ) (s : GDState n) (e : PyErr)
    (h : (gdEpoch X y lr it epoch s).2 = .error e) : e.isZeroDiv = true := by
  revert h
  simp only [gdEpoch, Model.predict]
  split_ifs <;> intro h <;> simp_all <;> subst h <;> rfl

lemma gdLoop_ok {n m : ℕ} (X : Matrix (Fin m) (Fin (n + 1)) ℚ)
    (y : Fin m → ℚ) (lr : ℚ) (it : ℕ)
    (hm : m ≠ 0) (h10 : it / 10 ≠ 0) (h100 : it / 100 ≠ 0) :
    ∀ (fuel epoch : ℕ) (s : GDState n),
      gdLoop X y lr it epoch fuel s = (gdRun X y lr fuel s, .ok ()) := by
  intro fuel
  induction fuel with
  | zero => intro epoch s; rfl
  | succ fuel ih =>
    intro epoch s
    rw [gdLoop, gdEpoch_ok X y lr it epoch s hm h10 h100]
    exact ih (epoch + 1) (gdStepState X y lr s)

lemma gdLoop_error_isZeroDiv {n m : ℕ} (X : Matrix (Fin m) (Fin (n + 1)) ℚ)
    (y : Fin m → ℚ) (lr : ℚ) (it : ℕ) :
    ∀ (fuel epoch : ℕ) (s : GDState n) (e : PyErr),
      (gdLoop X y lr it epoch fuel s).2 = .error e → e.isZeroDiv = true := by
  intro fuel
  induction fuel with
  | zero => intro epoch s e h; exact absurd h (by simp [gdLoop])
  | succ fuel ih =>
    intro epoch s e h
    rw [gdLoop] at h
    rcases hE : gdEpoch X y lr it epoch s with ⟨s', r⟩
    rcases r with e' | u
    · rw [hE] at h
      simp only at h
      cases h
      exact gdEpoch_error_isZeroDiv X y lr it epoch s _ (by rw [hE])
    · cases u
      rw [hE] at h
      simp only at h
      exact ih (epoch + 1) s' e h

lemma gdRun_params {n m : ℕ} (X : Matrix (Fin m) (Fin (n + 1)) ℚ)
    (y : Fin m → ℚ) (lr : ℚ) :
    ∀ (fuel : ℕ) (s : GDState n),
      ((gdRun X y lr fuel s).coef, (gdRun X y lr fuel s).icpt) =
        (gdClaimStep X y lr)^[fuel] (s.coef, s.icpt) := by
  intro fuel
  induction fuel with
  | zero => intro s; rfl
  | succ fuel ih =>
    intro s
    rw [gdRun, Function.iterate_succ_apply]
    exact ih (gdStepState X y lr s)

lemma gdRun_lengths {n m : ℕ} (X : Matrix (Fin m) (Fin (n + 1)) ℚ)
    (y : Fin m → ℚ) (lr : ℚ) :
    ∀ (fuel : ℕ) (s : GDState n),
      (gdRun X y lr fuel s).mseList.length = s.mseList.length + fuel ∧
      (gdRun X y lr fuel s).coefList.length = s.coefList.length + fuel ∧
      (gdRun X y lr fuel s).icptList.length = s.icptList.length + fuel := by
  intro fuel
  induction fuel with
  | zero => intro s; exact ⟨rfl, rfl, rfl⟩
  | succ fuel ih =>
    intro s
    obtain ⟨h1, h2, h3⟩ := ih (gdStepState X y lr s)
    rw [gdRun]
    refine ⟨?_, ?_, ?_⟩
    · rw [h1]; simp [gdStepState, gdRecordA]; omega
    · rw [h2]; simp [gdStepState, gdRecordA]; omega
    · rw [h3]; simp [gdStepState, gdRecordA]; omega

lemma div_ten_ne_zero {it : ℕ} (h : 10 ≤ it) : it / 10 ≠ 0 := by
  intro hc
  rw [Nat.div_eq_zero_iff (by norm_num)] at hc
  omega

lemma div_hundred_ne_zero {it : ℕ} (h : 100 ≤ it) : it / 100 ≠ 0 := by
  intro hc
  rw [Nat.div_eq_zero_iff (by norm_num)] at hc
  omega

lemma fit_gd_dispatch {n m : ℕ} (M : Model n) (X : Matrix (Fin m) (Fin n) ℚ)
    (y : Fin m → ℚ) (lr : ℚ) (it : ℕ) (rc : Fin n → ℚ) (ri : ℚ) :
    M.fit X y "gradient_descent" lr it rc ri =
      (match M.fit_gradient_descent (augment X) y lr it rc ri with
        | (M', .error e) => (M', .error e)
        | (M', .ok r) => (M', .ok (some r))) := by
  have hbad : ¬("gradient_descent" ≠ "least_squares" ∧
      "gradient_descent" ≠ "gradient_descent") := by
    intro hc
    exact hc.2 rfl
  have hne : ¬("gradient_descent" = "least_squares") := by decide
  simp only [Model.fit, if_neg hbad, if_neg hne]

/-- In the embedding, fit_gradient_descent is the loop started at the scaled
random initialization with fuel = iterations and epoch counter 0. -/
def gdInit {n : ℕ} (rc : Fin n → ℚ) (ri : ℚ) : GDState n :=
  ⟨fun j => rc j * (1 / 100), ri * (1 / 100), [], [], []⟩

lemma fit_gd_eq_loop {n m : ℕ} (M : Model n)
    (Xa : Matrix (Fin m) (Fin (n + 1)) ℚ) (y : Fin m → ℚ) (lr : ℚ) (it : ℕ)
    (rc : Fin n → ℚ) (ri : ℚ) :
    M.fit_gradient_descent Xa y lr it rc ri =
      (match gdLoop Xa y lr it 0 it (gdInit rc ri) with
        | (s, .error e) =>
          ({ coefficients := some s.coef, intercept := some s.icpt }, .error e)
        | (s, .ok ()) =>
          ({ coefficients := some s.coef, intercept := some s.icpt },
            .ok (s.mseList, s.coefList, s.icptList))) := rfl

lemma gdLoop_first_error {n m : ℕ} (X : Matrix (Fin m) (Fin (n + 1)) ℚ)
    (y : Fin m → ℚ) (lr : ℚ) (it epoch fuel : ℕ) (s s' : GDState n)
    (e : PyErr) (hE : gdEpoch X y lr it epoch s = (s', .error e)) :
    gdLoop X y lr it epoch (fuel + 1) s = (s', .error e) := by
  rw [gdLoop, hE]

lemma fit_gd_ok {n m : ℕ} (M : Model n) (X : Matrix (Fin m) (Fin n) ℚ)
    (y : Fin m → ℚ) (lr : ℚ) (it : ℕ) (rc : Fin n → ℚ) (ri : ℚ)
    (hm : m ≠ 0) (h10 : it / 10 ≠ 0) (h100 : it / 100 ≠ 0) :
    M.fit X y "gradient_descent" lr it rc ri =
      ({ coefficients := some (gdRun (augment X) y lr it (gdInit rc ri)).coef,
         intercept := some (gdRun (augment X) y lr it (gdInit rc ri)).icpt },
        .ok (some ((gdRun (augment X) y lr it (gdInit rc ri)).mseList,
          (gdRun (augment X) y lr it (gdInit rc ri)).coefList,
          (gdRun (augment X) y lr it (gdInit rc ri)).icptList))) := by
  rw [fit_gd_dispatch, fit_gd_eq_loop,
    gdLoop_ok (augment X) y lr it hm h10 h100]

lemma fit_gd_first_error {n m : ℕ} (M : Model n)
    (X : Matrix (Fin m) (Fin n) ℚ) (y : Fin m → ℚ) (lr : ℚ) (it : ℕ)
    (rc : Fin n → ℚ) (ri : ℚ) (s' : GDState n) (e : PyErr) (h1 : 1 ≤ it)
    (hE : gdEpoch (augment X) y lr it 0 (gdInit rc ri) = (s', .error e)) :
    M.fit X y "gradient_descent" lr it rc ri =
      ({ coefficients := some s'.coef, intercept := some s'.icpt },
        .error e) := by
  obtain ⟨f, rfl⟩ : ∃ f, it = f + 1 := ⟨it - 1, by omega⟩
  rw [fit_gd_dispatch, fit_gd_eq_loop,
    gdLoop_first_error (augment X) y lr (f + 1) 0 f (gdInit rc ri) s' e hE]

/-! The claim theorems. -/

/-- Claim C2 (amended: the per-epoch computation and the exact epoch count
hold for runs that reach normal termination, which requires at least one
sample and iterations ≥ 100; for smaller positive iteration counts the
cadence divisors of the loop body raise ZeroDivisionError, see C7 and C10):
every epoch computes predictions from the current parameters on the
un-augmented features, error = predictions - y,
gradient = (1/m) * error^T * X_augmented, and updates
intercept -= learning_rate * gradient[0],
coefficients -= learning_rate * gradient[1:]; the loop runs exactly
`iterations` epochs with no convergence check or early stopping, so the
final parameters are the iterations-fold iterate of that epoch map applied
to the scaled random initialization. -/
theorem gd_epoch_updates_and_exact_iterations {n m : ℕ} (M : Model n)
    (X : Matrix (Fin m) (Fin n) ℚ) (y : Fin m → ℚ) (lr : ℚ) (it : ℕ)
    (rc : Fin n → ℚ) (ri : ℚ) (hm : 0 < m) (h100 : 100 ≤ it) :
    (M.fit X y "gradient_descent" lr it rc ri).1 =
      { coefficients := some ((gdClaimStep (augment X) y lr)^[it]
            ((gdInit rc ri).coef, (gdInit rc ri).icpt)).1,
        intercept := some ((gdClaimStep (augment X) y lr)^[it]
            ((gdInit rc ri).coef, (gdInit rc ri).icpt)).2 } ∧
      (∃ r, (M.fit X y "gradient_descent" lr it rc ri).2 = .ok (some r)) ∧
      ∀ (epoch : ℕ) (s : GDState n),
        (gdEpoch (augment X) y lr it epoch s).2 = .ok () ∧
        ((gdEpoch (augment X) y lr it epoch s).1.coef,
          (gdEpoch (augment X) y lr it epoch s).1.icpt) =
          gdClaimStep (augment X) y lr (s.coef, s.icpt) := by
  rw [fit_gd_ok M X y lr it rc ri hm.ne' (div_ten_ne_zero (by omega))
    (div_hundred_ne_zero h100)]
  have hp := gdRun_params (augment X) y lr it (gdInit rc ri)
  refine ⟨?_, ⟨_, rfl⟩, fun epoch s => ?_⟩
  case refine_2 =>
    rw [gdEpoch_ok (augment X) y lr it epoch s hm.ne'
      (div_ten_ne_zero (by omega)) (div_hundred_ne_zero h100)]
    exact ⟨rfl, rfl⟩
  rw [show (gdRun (augment X) y lr it (gdInit rc ri)).coef =
        ((gdClaimStep (augment X) y lr)^[it]
          ((gdInit rc ri).coef, (gdInit rc ri).icpt)).1 from
      congrArg Prod.fst hp,
    show (gdRun (augment X) y lr it (gdInit rc ri)).icpt =
        ((gdClaimStep (augment X) y lr)^[it]
          ((gdInit rc ri).coef, (gdInit rc ri).icpt)).2 from
      congrArg Prod.snd hp]

/-- Witness for C2 at a concrete call (one sample, one feature,
iterations = 100): the hypotheses hold and the final parameters are the
100-fold iterate of the claimed epoch map. -/
theorem gd_epoch_updates_and_exact_iterations_witness :
    ((Model.mk none none : Model 1).fit (Matrix.of ![![(2:ℚ)]]) ![1]
        "gradient_descent" 1 100 ![50] 50).1 =
      { coefficients := some ((gdClaimStep (augment (Matrix.of ![![(2:ℚ)]]))
            ![1] 1)^[100] ((gdInit ![50] 50).coef, (gdInit ![50] 50).icpt)).1,
        intercept := some ((gdClaimStep (augment (Matrix.of ![![(2:ℚ)]]))
            ![1] 1)^[100]
            ((gdInit ![50] 50).coef, (gdInit ![50] 50).icpt)).2 } ∧
      (∃ r, ((Model.mk none none : Model 1).fit (Matrix.of ![![(2:ℚ)]]) ![1]
        "gradient_descent" 1 100 ![50] 50).2 = .ok (some r)) ∧
      ∀ (epoch : ℕ) (s : GDState 1),
        (gdEpoch (augment (Matrix.of ![![(2:ℚ)]])) ![1] 1 100 epoch s).2 =
          .ok () ∧
        ((gdEpoch (augment (Matrix.of ![![(2:ℚ)]])) ![1] 1 100 epoch s).1.coef,
          (gdEpoch (augment (Matrix.of ![![(2:ℚ)]])) ![1] 1 100 epoch
            s).1.icpt) =
          gdClaimStep (augment (Matrix.of ![![(2:ℚ)]])) ![1] 1
            (s.coef, s.icpt) :=
  gd_epoch_updates_and_exact_iterations (Model.mk none none) _ ![1] 1 100
    ![50] 50 (by norm_num) (by norm_num)

/-- Counterexample to C2 as frozen: the claim quantifies over every call,
but at iterations = 50 the loop does not run 50 epochs; it raises
ZeroDivisionError (from the zero divisor iterations // 100 in the recording
conditional) during the first epoch, so fit yields an error, not a
50-epoch run. -/
theorem gd_epoch_updates_and_exact_iterations_cex :
    ((Model.mk none none : Model 1).fit (Matrix.of ![![(1:ℚ)]]) ![0]
        "gradient_descent" 1 50 ![100] 100).2 = .error .zeroDivCadence100 :=
  rfl

/-- Claim C3 (amended: holds for runs that reach normal termination, which
requires at least one sample and iterations ≥ 100, see C7 and C10 for the
fault cases): fit with gradient_descent returns three history sequences
(MSE per epoch, coefficients snapshot per epoch, intercept per epoch), each
of length exactly `iterations`, one entry appended every epoch; the two
branches of the recording conditional perform identical appends. -/
theorem gd_histories_length_iterations {n m : ℕ} (M : Model n)
    (X : Matrix (Fin m) (Fin n) ℚ) (y : Fin m → ℚ) (lr : ℚ) (it : ℕ)
    (rc : Fin n → ℚ) (ri : ℚ) (hm : 0 < m) (h100 : 100 ≤ it) :
    (∃ (M' : Model n) (mseL : List ℚ) (coefL : List (Fin n → ℚ))
        (icptL : List ℚ),
      M.fit X y "gradient_descent" lr it rc ri =
        (M', .ok (some (mseL, coefL, icptL))) ∧
      mseL.length = it ∧ coefL.length = it ∧ icptL.length = it) ∧
    ∀ (s : GDState n) (e : Fin m → ℚ) (c : Fin n → ℚ) (b : ℚ),
      gdRecordA s e c b = gdRecordB s e c b := by
  refine ⟨?_, fun _ _ _ _ => rfl⟩
  rw [fit_gd_ok M X y lr it rc ri hm.ne' (div_ten_ne_zero (by omega))
    (div_hundred_ne_zero h100)]
  obtain ⟨h1, h2, h3⟩ := gdRun_lengths (augment X) y lr it (gdInit rc ri)
  exact ⟨_, _, _, _, rfl, by simpa [gdInit] using h1,
    by simpa [gdInit] using h2, by simpa [gdInit] using h3⟩

/-- Witness for C3 at a concrete call (one sample, one feature,
iterations = 100). -/
theorem gd_histories_length_iterations_witness :
    (∃ (M' : Model 1) (mseL : List ℚ) (coefL : List (Fin 1 → ℚ))
        (icptL : List ℚ),
      (Model.mk none none : Model 1).fit (Matrix.of ![![(3:ℚ)]]) ![2]
          "gradient_descent" (1 / 2) 100 ![40] 60 =
        (M', .ok (some (mseL, coefL, icptL))) ∧
      mseL.length = 100 ∧ coefL.length = 100 ∧ icptL.length = 100) ∧
    ∀ (s : GDState 1) (e : Fin 1 → ℚ) (c : Fin 1 → ℚ) (b : ℚ),
      gdRecordA s e c b = gdRecordB s e c b :=
  gd_histories_length_iterations (Model.mk none none) _ ![2] (1 / 2) 100
    ![40] 60 (by norm_num) (by norm_num)

/-- Counterexample to C3 as frozen: at iterations = 7 fit raises
ZeroDivisionError (zero divisor iterations // 10 in the diagnostic cadence)
during the first epoch and returns no history sequences at all. -/
theorem gd_histories_length_iterations_cex :
    ((Model.mk none none : Model 1).fit (Matrix.of ![![(3:ℚ)]]) ![2]
        "gradient_descent" 1 7 ![10] 20).2 = .error .zeroDivCadence10 :=
  rfl

/-- Claim C7 (amended: positive iterations below 10; with iterations = 0 the
loop body never runs and no fault occurs, see the counterexample): every
call to fit with method gradient_descent and 1 ≤ iterations < 10 fails with
a division-related fault (ZeroDivisionError): the zero divisor
iterations // 10 of the diagnostic cadence, or, when the data is empty, the
division 1/m in the gradient, both raised during the first epoch. -/
theorem gd_small_iterations_division_fault {n m : ℕ} (M : Model n)
    (X : Matrix (Fin m) (Fin n) ℚ) (y : Fin m → ℚ) (lr : ℚ) (it : ℕ)
    (rc : Fin n → ℚ) (ri : ℚ) (h1 : 1 ≤ it) (hlt : it < 10) :
    ∃ e, (M.fit X y "gradient_descent" lr it rc ri).2 = .error e ∧
      e.isZeroDiv = true := by
  have h10 : it / 10 = 0 := by
    rw [Nat.div_eq_zero_iff (by norm_num)]
    omega
  by_cases hm : m = 0
  · exact ⟨.zeroDivGradient, by
      rw [fit_gd_first_error M X y lr it rc ri (gdInit rc ri)
        .zeroDivGradient h1 (gdEpoch_m0 (augment X) y lr it 0 (gdInit rc ri) hm)],
      rfl⟩
  · exact ⟨.zeroDivCadence10, by
      rw [fit_gd_first_error M X y lr it rc ri _ .zeroDivCadence10 h1
        (gdEpoch_cadence10 (augment X) y lr it 0 (gdInit rc ri) hm h10)],
      rfl⟩

/-- Witness for C7 at a concrete call with iterations = 5. -/
theorem gd_small_iterations_division_fault_witness :
    ∃ e, ((Model.mk none none : Model 1).fit (Matrix.of ![![(1:ℚ)]]) ![0]
        "gradient_descent" 1 5 ![100] 100).2 = .error e ∧
      e.isZeroDiv = true :=
  gd_small_iterations_division_fault (Model.mk none none) _ ![0] 1 5
    ![100] 100 (by norm_num) (by norm_num)

/-- Counterexample to C7 as frozen: the claim quantifies over every
iterations < 10, but at iterations = 0 the loop body never executes, so the
call completes without any fault and returns three empty histories. -/
theorem gd_small_iterations_division_fault_cex :
    ((Model.mk none none : Model 1).fit (Matrix.of ![![(1:ℚ)]]) ![0]
        "gradient_descent" 1 0 ![100] 100).2 = .ok (some ([], [], [])) :=
  rfl

/-- Claim C10: for every call to fit with method gradient_descent and
10 ≤ iterations < 100, the optimizer raises a division-by-zero fault on
the first epoch; on nonempty data (the only case with any other fault
candidate in play) the fault is specifically the recording conditional
evaluating epoch % (iterations // 100) (zero divisor) before the
iterations > 1000 test of the conjunction, and the model parameters
witness that exactly one epoch ran: they hold the initialization advanced
by a single epoch update.  (With zero samples the first epoch instead
faults at the division 1/m of the gradient, still a first-epoch
ZeroDivisionError in Python.)  Guarding only iterations ≥ 10 is therefore
insufficient; fault-free completion requires iterations ≥ 100 (covered by
the C2/C3 theorems). -/
theorem gd_mid_iterations_cadence100_fault {n m : ℕ} (M : Model n)
    (X : Matrix (Fin m) (Fin n) ℚ) (y : Fin m → ℚ) (lr : ℚ) (it : ℕ)
    (rc : Fin n → ℚ) (ri : ℚ) (hlo : 10 ≤ it) (hhi : it < 100) :
    (∃ e, (M.fit X y "gradient_descent" lr it rc ri).2 = .error e ∧
      e.isZeroDiv = true) ∧
    (0 < m →
      (M.fit X y "gradient_descent" lr it rc ri).2 =
          .error .zeroDivCadence100 ∧
        (M.fit X y "gradient_descent" lr it rc ri).1 =
          { coefficients := some ((gdClaimStep (augment X) y lr)
                ((gdInit rc ri).coef, (gdInit rc ri).icpt)).1,
            intercept := some ((gdClaimStep (augment X) y lr)
                ((gdInit rc ri).coef, (gdInit rc ri).icpt)).2 }) := by
  have h100 : it / 100 = 0 := by
    rw [Nat.div_eq_zero_iff (by norm_num)]
    omega
  by_cases hm : m = 0
  · refine ⟨⟨.zeroDivGradient, ?_, rfl⟩, fun hmpos => absurd hm (by omega)⟩
    rw [fit_gd_first_error M X y lr it rc ri (gdInit rc ri) .zeroDivGradient
      (by omega) (gdEpoch_m0 (augment X) y lr it 0 (gdInit rc ri) hm)]
  · have hE := gdEpoch_cadence100 (augment X) y lr it 0 (gdInit rc ri) hm
      (div_ten_ne_zero hlo) h100
    refine ⟨⟨.zeroDivCadence100, ?_, rfl⟩, fun _ => ?_⟩
    · rw [fit_gd_first_error M X y lr it rc ri _ .zeroDivCadence100
        (by omega) hE]
    · rw [fit_gd_first_error M X y lr it rc ri _ .zeroDivCadence100
        (by omega) hE]
      exact ⟨rfl, rfl⟩

lemma fit_gd_fst_some {n m : ℕ} (M : Model n)
    (Xa : Matrix (Fin m) (Fin (n + 1)) ℚ) (y : Fin m → ℚ) (lr : ℚ) (it : ℕ)
    (rc : Fin n → ℚ) (ri : ℚ) :
    ∃ c b, (M.fit_gradient_descent Xa y lr it rc ri).1 =
      { coefficients := some c, intercept := some b } := by
  rw [fit_gd_eq_loop]
  rcases hL : gdLoop Xa y lr it 0 it (gdInit rc ri) with ⟨s, e | u⟩
  · exact ⟨s.coef, s.icpt, rfl⟩
  · cases u
    exact ⟨s.coef, s.icpt, rfl⟩

lemma fit_gd_snd_error_isZeroDiv {n m : ℕ} (M : Model n)
    (Xa : Matrix (Fin m) (Fin (n + 1)) ℚ) (y : Fin m → ℚ) (lr : ℚ) (it : ℕ)
    (rc : Fin n → ℚ) (ri : ℚ) (e : PyErr)
    (h : (M.fit_gradient_descent Xa y lr it rc ri).2 = .error e) :
    e.isZeroDiv = true := by
  rw [fit_gd_eq_loop] at h
  rcases hL : gdLoop Xa y lr it 0 it (gdInit rc ri) with ⟨s, e' | u⟩
  · rw [hL] at h
    simp only at h
    cases h
    exact gdLoop_error_isZeroDiv Xa y lr it it 0 (gdInit rc ri) _ (by rw [hL])
  · cases u
    rw [hL] at h
    exact Except.noConfusion h

/-- Witness for C10 at a concrete call with iterations = 42 and one
sample. -/
theorem gd_mid_iterations_cadence100_fault_witness :
    (∃ e, ((Model.mk none none : Model 1).fit (Matrix.of ![![(2:ℚ)]]) ![1]
        "gradient_descent" 1 42 ![30] 30).2 = .error e ∧
      e.isZeroDiv = true) ∧
    (0 < 1 →
      ((Model.mk none none : Model 1).fit (Matrix.of ![![(2:ℚ)]]) ![1]
          "gradient_descent" 1 42 ![30] 30).2 = .error .zeroDivCadence100 ∧
        ((Model.mk none none : Model 1).fit (Matrix.of ![![(2:ℚ)]]) ![1]
            "gradient_descent" 1 42 ![30] 30).1 =
          { coefficients := some ((gdClaimStep (augment
                  (Matrix.of ![![(2:ℚ)]])) ![1] 1)
                ((gdInit ![30] 30).coef, (gdInit ![30] 30).icpt)).1,
            intercept := some ((gdClaimStep (augment (Matrix.of ![![(2:ℚ)]]))
                ![1] 1) ((gdInit ![30] 30).coef, (gdInit ![30] 30).icpt)).2 }) :=
  gd_mid_iterations_cadence100_fault (Model.mk none none) _ ![1] 1 42
    ![30] 30 (by norm_num) (by norm_num)

/-- Claim C8 (amended: failures of the method check and of the closed-form
solve leave the model unchanged, and every successful fit sets both
parameters together; but the gradient-descent ZeroDivisionError faults do
NOT leave the model unchanged: fit_gradient_descent reassigns both
parameters before its loop and updates them once more before the cadence
fault, so after such a failure both parameters are (re)set): for every fit
call, an InvalidArgument failure returns the unchanged model, a
SingularMatrix failure returns the unchanged model, a successful call
returns a model with both parameters set, and a division-fault failure also
returns a model with both parameters set (hence generally changed). -/
theorem fit_state_on_failure_and_success {n m : ℕ} (M : Model n)
    (X : Matrix (Fin m) (Fin n) ℚ) (y : Fin m → ℚ) (method : String)
    (lr : ℚ) (it : ℕ) (rc : Fin n → ℚ) (ri : ℚ) :
    ((M.fit X y method lr it rc ri).2 = .error .invalidMethod →
      (M.fit X y method lr it rc ri).1 = M) ∧
    ((M.fit X y method lr it rc ri).2 = .error .singularMatrix →
      (M.fit X y method lr it rc ri).1 = M) ∧
    ((∃ r, (M.fit X y method lr it rc ri).2 = .ok r) →
      ∃ c b, (M.fit X y method lr it rc ri).1 =
        { coefficients := some c, intercept := some b }) ∧
    (∀ e, (M.fit X y method lr it rc ri).2 = .error e →
      e.isZeroDiv = true →
      ∃ c b, (M.fit X y method lr it rc ri).1 =
        { coefficients := some c, intercept := some b }) := by
  by_cases hls : method = "least_squares"
  · subst hls
    by_cases hdet : ((augment X)ᵀ * augment X).det = 0
    · rw [fit_ls_singular M X y lr it rc ri hdet]
      refine ⟨?_, fun _ => rfl, ?_, ?_⟩
      · intro h
        simp at h
      · rintro ⟨r, h⟩
        simp at h
      · intro e h hz
        cases h
        simp [PyErr.isZeroDiv] at hz
    · rw [fit_ls_eq M X y lr it rc ri hdet]
      refine ⟨?_, ?_, ?_, ?_⟩
      · intro h
        simp at h
      · intro h
        simp at h
      · intro _
        exact ⟨_, _, rfl⟩
      · intro e h hz
        simp at h
  · by_cases hgd : method = "gradient_descent"
    · subst hgd
      have hsome := fit_gd_fst_some M (augment X) y lr it rc ri
      rcases hG : M.fit_gradient_descent (augment X) y lr it rc ri
        with ⟨M', e | r⟩
      · rw [hG] at hsome
        have hz : e.isZeroDiv = true := by
          have h2 := fit_gd_snd_error_isZeroDiv M (augment X) y lr it rc ri e
          rw [hG] at h2
          exact h2 rfl
        rw [fit_gd_dispatch, hG]
        refine ⟨?_, ?_, ?_, ?_⟩
        · intro h
          simp only [Except.error.injEq] at h
          subst h
          simp [PyErr.isZeroDiv] at hz
        · intro h
          simp only [Except.error.injEq] at h
          subst h
          simp [PyErr.isZeroDiv] at hz
        · rintro ⟨r, h⟩
          simp at h
        · intro e' h hz'
          exact hsome
      · rw [hG] at hsome
        rw [fit_gd_dispatch, hG]
        refine ⟨?_, ?_, ?_, ?_⟩
        · intro h
          simp at h
        · intro h
          simp at h
        · intro _
          exact hsome
        · intro e' h hz'
          simp at h
    · rw [fit_bad_method M X y method lr it rc ri hls hgd]
      refine ⟨fun _ => rfl, ?_, ?_, ?_⟩
      · intro h
        simp at h
      · rintro ⟨r, h⟩
        simp at h
      · intro e h hz
        cases h
        simp [PyErr.isZeroDiv] at hz

/-- Witness for C8 at a concrete gradient-descent call that faults
(iterations = 8): after the failing call both parameters are set. -/
theorem fit_state_on_failure_and_success_witness :
    ∃ c b, ((Model.mk none none : Model 1).fit (Matrix.of ![![(5:ℚ)]]) ![1]
        "gradient_descent" 1 8 ![100] 100).1 =
      { coefficients := some c, intercept := some b } :=
  (fit_state_on_failure_and_success (Model.mk none none) (Matrix.of ![![(5:ℚ)]])
      ![1] "gradient_descent" 1 8 ![100] 100).2.2.2
    .zeroDivCadence10 rfl rfl

/-- Counterexample to C8 as frozen: a failing gradient-descent fit call
(iterations = 6 raises ZeroDivisionError) does NOT leave the model
parameters unchanged: the model was fresh (both None) before the call and
has its intercept set after it. -/
theorem fit_state_on_failure_cex :
    (∃ e, ((Model.mk none none : Model 1).fit (Matrix.of ![![(1:ℚ)]]) ![0]
        "gradient_descent" 1 6 ![100] 100).2 = .error e) ∧
    ((Model.mk none none : Model 1).fit (Matrix.of ![![(1:ℚ)]]) ![0]
        "gradient_descent" 1 6 ![100] 100).1 ≠
      (Model.mk none none : Model 1) := by
  refine ⟨⟨.zeroDivCadence10, rfl⟩, ?_⟩
  intro h
  have hs : ((Model.mk none none : Model 1).fit (Matrix.of ![![(1:ℚ)]]) ![0]
      "gradient_descent" 1 6 ![100] 100).1.intercept.isSome = true := rfl
  rw [h] at hs
  exact Bool.noConfusion hs

/-- Over ℚ, a matrix with linearly independent columns has an invertible
Gram matrix: if det (Aᵀ A) = 0 there is v ≠ 0 with (Aᵀ A) v = 0, then
(A v) ⬝ (A v) = v ⬝ (Aᵀ A v) = 0 forces A v = 0, contradicting the
independence of the columns. -/
lemma gram_det_ne_zero_of_linearIndependent {m k : ℕ}
    (A : Matrix (Fin m) (Fin k) ℚ) (h : LinearIndependent ℚ Aᵀ) :
    (Aᵀ * A).det ≠ 0 := by
  intro hdet
  obtain ⟨v, hv0, hv⟩ := Matrix.exists_mulVec_eq_zero_iff.mpr hdet
  have hAv : A.mulVec v = 0 := by
    have h1 : Matrix.dotProduct v ((Aᵀ * A).mulVec v) = 0 := by
      rw [hv]
      simp
    have h2 : Matrix.dotProduct v ((Aᵀ * A).mulVec v) =
        Matrix.dotProduct (A.mulVec v) (A.mulVec v) := by
      rw [← Matrix.mulVec_mulVec, Matrix.dotProduct_mulVec,
        Matrix.vecMul_transpose]
    exact Matrix.dotProduct_self_eq_zero.mp (h2 ▸ h1)
  have hsum : (Finset.univ.sum fun j => v j • Aᵀ j) = 0 := by
    funext i
    rw [Finset.sum_apply]
    simpa [Matrix.mulVec, Matrix.dotProduct, Matrix.transpose_apply,
      mul_comm] using congrFun hAv i
  exact hv0 (funext fun j => Fintype.linearIndependent_iff.mp h v hsum j)

lemma augment_apply_zero {m n : ℕ} (X : Matrix (Fin m) (Fin n) ℚ)
    (i : Fin m) : augment X i 0 = 1 := rfl

lemma augment_apply_succ {m n : ℕ} (X : Matrix (Fin m) (Fin n) ℚ)
    (i : Fin m) (j : Fin n) : augment X i j.succ = X i j := rfl

/-- Over ℚ the fitted least-squares parameter vector w satisfies the
normal-equation orthogonality: every column of the design matrix is
orthogonal to the residual y - Xa w. -/
lemma normal_equation_orthogonality {m k : ℕ} (Xa : Matrix (Fin m) (Fin k) ℚ)
    (y : Fin m → ℚ) (hdet : (Xaᵀ * Xa).det ≠ 0) (j : Fin k) :
    (Finset.univ.sum fun i =>
      Xa i j * (y i - Xa.mulVec (((Xaᵀ * Xa)⁻¹ * Xaᵀ).mulVec y) i)) = 0 := by
  have hGw : Xaᵀ.mulVec (Xa.mulVec (((Xaᵀ * Xa)⁻¹ * Xaᵀ).mulVec y)) =
      Xaᵀ.mulVec y := by
    simp only [Matrix.mulVec_mulVec]
    rw [← Matrix.mul_assoc Xaᵀ Xa _, ← Matrix.mul_assoc (Xaᵀ * Xa) _ Xaᵀ,
      Matrix.mul_nonsing_inv _ (isUnit_iff_ne_zero.mpr hdet), Matrix.one_mul]
  have hresid : Xaᵀ.mulVec (y - Xa.mulVec (((Xaᵀ * Xa)⁻¹ * Xaᵀ).mulVec y)) =
      0 := by
    rw [Matrix.mulVec_sub, hGw, sub_self]
  have hj := congrFun hresid j
  exact hj

/-- Claim C4: for every (X, y) whose bias-augmented feature matrix has full
column rank (its columns are linearly independent; over exact arithmetic
this is equivalent to invertibility of the Gram matrix), fitting with
least_squares and then predicting on X yields residuals y - p whose sum is
zero and whose dot product with each feature column of X is zero: the
normal-equation optimality conditions. -/
theorem ls_fit_predict_residual_orthogonality {n m : ℕ} (M : Model n)
    (X : Matrix (Fin m) (Fin n) ℚ) (y : Fin m → ℚ) (lr : ℚ) (it : ℕ)
    (rc : Fin n → ℚ) (ri : ℚ)
    (h : LinearIndependent ℚ (augment X)ᵀ) :
    ∃ p : Fin m → ℚ,
      ((M.fit X y "least_squares" lr it rc ri).1.predict X).2 = .ok p ∧
      (Finset.univ.sum fun i => y i - p i) = 0 ∧
      ∀ j : Fin n, (Finset.univ.sum fun i => X i j * (y i - p i)) = 0 := by
  have hdet : ((augment X)ᵀ * augment X).det ≠ 0 :=
    gram_det_ne_zero_of_linearIndependent (augment X) h
  rw [fit_ls_eq M X y lr it rc ri hdet]
  set W : Fin (n + 1) → ℚ :=
    (((augment X)ᵀ * augment X)⁻¹ * (augment X)ᵀ).mulVec y with hW
  have horth := fun j => normal_equation_orthogonality (augment X) y hdet j
  rw [← hW] at horth
  have hpred : ∀ i, X.mulVec (fun j => W j.succ) i + W 0 =
      (augment X).mulVec W i := by
    intro i
    simp only [Matrix.mulVec, Matrix.dotProduct, Fin.sum_univ_succ,
      augment_apply_zero, augment_apply_succ, one_mul]
    exact add_comm _ _
  refine ⟨fun i => X.mulVec (fun j => W j.succ) i + W 0, rfl, ?_, ?_⟩
  · simp only [hpred]
    simpa only [augment_apply_zero, one_mul] using horth 0
  · intro j
    simp only [hpred]
    simpa only [augment_apply_succ] using horth j.succ

/-- Witness for C4 at a concrete call: X = [[0],[1],[2]], y = [0,0,3] has a
full-column-rank augmented matrix; the fitted model predicts p with
residual sum zero and residual orthogonal to the feature column. -/
theorem ls_fit_predict_residual_orthogonality_witness :
    ∃ p : Fin 3 → ℚ,
      (((Model.mk none none : Model 1).fit (Matrix.of ![![(0:ℚ)], ![1], ![2]])
          ![0, 0, 3] "least_squares" 1 1000 ![0] 0).1.predict
        (Matrix.of ![![(0:ℚ)], ![1], ![2]])).2 = .ok p ∧
      (Finset.univ.sum fun i => ![(0:ℚ), 0, 3] i - p i) = 0 ∧
      ∀ j : Fin 1, (Finset.univ.sum fun i =>
        (Matrix.of ![![(0:ℚ)], ![1], ![2]]) i j * (![(0:ℚ), 0, 3] i - p i)) =
          0 := by
  have hXaT : (augment (Matrix.of ![![(0:ℚ)], ![1], ![2]]))ᵀ =
      !![1, 1, 1; 0, 1, 2] := by
    funext i j
    fin_cases i <;> fin_cases j <;> rfl
  have hLI : LinearIndependent ℚ
      (augment (Matrix.of ![![(0:ℚ)], ![1], ![2]]))ᵀ := by
    rw [hXaT, Fintype.linearIndependent_iff]
    intro g hg
    have h0 := congrFun hg 0
    have h1 := congrFun hg 1
    rw [Finset.sum_apply, Fin.sum_univ_two] at h0 h1
    simp [Pi.smul_apply] at h0 h1
    intro j
    fin_cases j
    · exact h0
    · show g 1 = 0
      linarith
  exact ls_fit_predict_residual_orthogonality (Model.mk none none)
    (Matrix.of ![![(0:ℚ)], ![1], ![2]]) ![0, 0, 3] 1 1000 ![0] 0 hLI

/-- Claim C5: for every input (X, y) and every method string other than
"least_squares" and "gradient_descent", fit fails with InvalidArgument
(ValueError in the source) before touching the data, and the model
intercept and coefficients are left unchanged: the result is the unchanged
model paired with the error, for arbitrary data. -/
theorem fit_invalid_method_rejected {n m : ℕ} (M : Model n)
    (X : Matrix (Fin m) (Fin n) ℚ) (y : Fin m → ℚ) (method : String)
    (lr : ℚ) (it : ℕ) (rc : Fin n → ℚ) (ri : ℚ)
    (h1 : method ≠ "least_squares") (h2 : method ≠ "gradient_descent") :
    M.fit X y method lr it rc ri = (M, .error .invalidMethod) :=
  fit_bad_method M X y method lr it rc ri h1 h2

/-- Witness for C5 at a concrete call: method "banana" on a fitted model and
concrete data leaves the model untouched and reports the invalid method. -/
theorem fit_invalid_method_rejected_witness :
    (Model.mk (some ![3]) (some 5) : Model 1).fit (Matrix.of ![![(2:ℚ)]])
        ![1] "banana" 1 1000 ![0] 0 =
      (Model.mk (some ![3]) (some 5), .error .invalidMethod) :=
  fit_invalid_method_rejected _ _ _ _ _ _ _ _ (by decide) (by decide)

/-- Claim C6: calling predict on a model whose coefficients or intercept is
unset fails with ModelNotFitted (ValueError in the source), on the
two-dimensional path and on the one-dimensional path alike, and predict
never modifies the model state (the model component of its result is always
the receiver). -/
theorem predict_unfitted_raises {n m : ℕ} (M : Model n)
    (X : Matrix (Fin m) (Fin n) ℚ)
    (h : M.coefficients = none ∨ M.intercept = none) :
    M.predict X = (M, .error .notFitted) ∧
      (∀ (M' : Model n) (X' : Matrix (Fin m) (Fin n) ℚ),
        (M'.predict X').1 = M') ∧
      (∀ (M1 : Model 1) (x : Fin m → ℚ),
        M1.coefficients = none ∨ M1.intercept = none →
          M1.predict1 x = (M1, .error .notFitted)) ∧
      (∀ (M1 : Model 1) (x : Fin m → ℚ), (M1.predict1 x).1 = M1) := by
  refine ⟨?_, ?_, ?_, ?_⟩
  · obtain ⟨_ | c, _ | b⟩ := M
    · rfl
    · rfl
    · rfl
    · rcases h with h | h <;> simp_all
  · intro M' X'
    obtain ⟨_ | c, _ | b⟩ := M' <;> rfl
  · intro M1 x h1
    obtain ⟨_ | c, _ | b⟩ := M1
    · rfl
    · rfl
    · rfl
    · rcases h1 with h1 | h1 <;> simp_all
  · intro M1 x
    obtain ⟨_ | c, _ | b⟩ := M1 <;> rfl

/-- Witness for C6: a freshly constructed model (both attributes None)
rejects prediction on concrete data with ModelNotFitted. -/
theorem predict_unfitted_raises_witness :
    (Model.mk none none : Model 1).predict (Matrix.of ![![(2:ℚ)]]) =
      (Model.mk none none, .error .notFitted) :=
  (predict_unfitted_raises (Model.mk none none) (Matrix.of ![![(2:ℚ)]])
    (Or.inl rfl)).1

/-- Claim C1: fit with method least_squares computes
w = (X_augᵀ X_aug)⁻¹ X_augᵀ y over the bias-augmented matrix and sets
intercept = w[0], coefficients = w[1:], whenever X_augᵀ X_aug is
invertible; a one-dimensional X is first reshaped into a single-column
matrix and then handled by the same code path. -/
theorem fit_least_squares_normal_equation {n m : ℕ} (M : Model n)
    (X : Matrix (Fin m) (Fin n) ℚ) (y : Fin m → ℚ) (lr : ℚ) (it : ℕ)
    (rc : Fin n → ℚ) (ri : ℚ)
    (h : IsUnit ((augment X)ᵀ * augment X).det) :
    M.fit X y "least_squares" lr it rc ri =
      ({ coefficients := some fun j =>
            (((augment X)ᵀ * augment X)⁻¹ * (augment X)ᵀ).mulVec y j.succ,
         intercept :=
            some ((((augment X)ᵀ * augment X)⁻¹ * (augment X)ᵀ).mulVec y 0) },
        .ok none) ∧
      (∀ (M1 : Model 1) (x : Fin m → ℚ) (rc1 : Fin 1 → ℚ),
        M1.fit1 x y "least_squares" lr it rc1 ri =
          M1.fit (reshapeCol x) y "least_squares" lr it rc1 ri) :=
  ⟨fit_ls_eq M X y lr it rc ri (isUnit_iff_ne_zero.mp h),
    fun _ _ _ => rfl⟩

/-- Witness for C1 at a concrete call: X = [[0],[1]], y = [1,3] gives the
augmented Gram matrix [[2,1],[1,1]] (invertible), and the normal equation
yields intercept 1 and coefficient vector [2]. -/
theorem fit_least_squares_normal_equation_witness :
    (Model.mk none none : Model 1).fit (Matrix.of ![![(0:ℚ)], ![1]]) ![1, 3]
        "least_squares" 1 1000 ![0] 0 =
      ({ coefficients := some ![2], intercept := some 1 }, .ok none) := by
  have hXa : augment (Matrix.of ![![(0:ℚ)], ![1]]) = !![1, 0; 1, 1] := by
    funext i j
    fin_cases i <;> fin_cases j <;> rfl
  have hT : (!![(1:ℚ), 0; 1, 1])ᵀ = !![1, 1; 0, 1] := by
    funext i j
    fin_cases i <;> fin_cases j <;> rfl
  have hG : !![(1:ℚ), 1; 0, 1] * !![(1:ℚ), 0; 1, 1] = !![2, 1; 1, 1] := by
    rw [Matrix.mul_fin_two]
    norm_num
  have hdet : IsUnit (!![(2:ℚ), 1; 1, 1]).det := by
    rw [Matrix.det_fin_two_of]
    norm_num
  have hInv : (!![(2:ℚ), 1; 1, 1])⁻¹ = !![1, -1; -1, 2] := by
    rw [Matrix.inv_def, Matrix.det_fin_two_of, Matrix.adjugate_fin_two_of]
    norm_num [Ring.inverse_eq_inv]
  have hw : (!![(1:ℚ), -1; -1, 2] * !![(1:ℚ), 1; 0, 1]).mulVec ![1, 3] =
      ![1, 2] := by
    rw [Matrix.mul_fin_two]
    funext i
    fin_cases i <;>
      simp [Matrix.mulVec, Matrix.dotProduct, Fin.sum_univ_two] <;> norm_num
  have h : IsUnit ((augment (Matrix.of ![![(0:ℚ)], ![1]]))ᵀ *
      augment (Matrix.of ![![(0:ℚ)], ![1]])).det := by
    rw [hXa, hT, hG]
    exact hdet
  have hmain := (fit_least_squares_normal_equation (Model.mk none none)
    (Matrix.of ![![(0:ℚ)], ![1]]) ![1, 3] 1 1000 ![0] 0 h).1
  rw [hmain, hXa, hT, hG, hInv, hw]
  have hcoef : (fun j : Fin 1 => (![1, 2] : Fin 2 → ℚ) j.succ) = ![2] := by
    funext j
    fin_cases j <;> rfl
  rw [hcoef]
  rfl

/-- Claim C9: for every 2D data matrix X (rectangular, ncols columns), set
of valid categorical column indices (distinct, in range) and drop_first
flag, one_hot_encode returns a matrix whose row count equals that of X
and whose column count — the length of every row — equals
(ncols - number of categorical columns) + the sum over the categorical
columns of (number of distinct values - (1 if drop_first else 0)); and the
row order is unchanged from X: the output is exactly the map of the
per-row transform oheRow over the rows of X, so output row i is computed
from input row i (this last conjunct holds unconditionally). -/
theorem one_hot_encode_shape {α : Type} [LinearOrder α] [DecidableEq α]
    [Zero α] [One α] (X : List (List α)) (categorical_indices : List ℕ)
    (drop_first : Bool) (ncols : ℕ)
    (hrect : ∀ r ∈ X, r.length = ncols)
    (hnd : categorical_indices.Nodup)
    (hlt : ∀ i ∈ categorical_indices, i < ncols) :
    (one_hot_encode X categorical_indices drop_first).length = X.length ∧
    (∀ r ∈ one_hot_encode X categorical_indices drop_first, r.length =
      (ncols - categorical_indices.length) +
        (categorical_indices.map fun index =>
          (X.map fun row => row.getD index 0).toFinset.card -
            (if drop_first then 1 else 0)).sum) ∧
    one_hot_encode X categorical_indices drop_first =
      X.map (oheRow X categorical_indices drop_first) := by
  have main :
      (one_hot_encode X categorical_indices drop_first).length = X.length ∧
      ∀ r ∈ one_hot_encode X categorical_indices drop_first, r.length =
        (ncols - categorical_indices.length) +
          (categorical_indices.map fun index =>
            (X.map fun row => row.getD index 0).toFinset.card -
              (if drop_first then 1 else 0)).sum := by
    rw [one_hot_encode_eq]
    have hperm := sortDescend_perm categorical_indices
    have hpw := sortDescend_pairwise hnd
    have hdel_len : ((sortDescend categorical_indices).foldl
        (fun acc index => acc.map fun row => row.eraseIdx index) X).length =
        X.length := by
      rw [foldl_map_comm]
      exact List.length_map X _
    have hdel_rows : ∀ r ∈ (sortDescend categorical_indices).foldl
        (fun acc index => acc.map fun row => row.eraseIdx index) X,
        r.length = ncols - categorical_indices.length := by
      rw [foldl_map_comm]
      intro r hr
      obtain ⟨row, hrow, rfl⟩ := List.mem_map.mp hr
      rw [eraseIdx_foldl_length (sortDescend categorical_indices) row hpw
        (fun d hd => by rw [hrect row hrow]; exact hlt d (hperm.mem_iff.mp hd)),
        hrect row hrow, hperm.length_eq]
    obtain ⟨h1, h2⟩ := ohe_fold_spec X drop_first (sortDescend categorical_indices)
      _ (ncols - categorical_indices.length) hdel_len hdel_rows
    refine ⟨h1, fun r hr => ?_⟩
    rw [h2 r hr]
    congr 1
    rw [(hperm.map fun index =>
      (npUnique (X.map fun row => row.getD index 0)).length -
        (if drop_first then 1 else 0)).sum_eq]
    exact congrArg List.sum (List.map_congr_left fun index _ => by
      rw [npUnique_length])
  exact ⟨main.1, main.2, one_hot_encode_map X categorical_indices drop_first⟩

/-- Witness for C9 at a concrete call: X = [[10,1],[20,2],[10,3]] over ℕ,
encoding column 0 (two distinct values) without drop_first gives 3 rows of
(2 - 1) + 2 = 3 entries each, and the output is the per-row transform
mapped over the rows of X in order. -/
theorem one_hot_encode_shape_witness :
    (one_hot_encode [[10, 1], [20, 2], [10, 3]] [0] false).length =
      ([[10, 1], [20, 2], [10, 3]] : List (List ℕ)).length ∧
    (∀ r ∈ one_hot_encode ([[10, 1], [20, 2], [10, 3]] : List (List ℕ))
        [0] false, r.length =
      (2 - ([0] : List ℕ).length) +
        (([0] : List ℕ).map fun index =>
          (([[10, 1], [20, 2], [10, 3]] : List (List ℕ)).map
            fun row => row.getD index 0).toFinset.card -
              (if false then 1 else 0)).sum) ∧
    one_hot_encode ([[10, 1], [20, 2], [10, 3]] : List (List ℕ)) [0] false =
      ([[10, 1], [20, 2], [10, 3]] : List (List ℕ)).map
        (oheRow [[10, 1], [20, 2], [10, 3]] [0] false) :=
  one_hot_encode_shape [[10, 1], [20, 2], [10, 3]] [0] false 2
    (by decide) (by decide) (by decide)

end LabLR
